import Mathlib

/-!
Verification of the mavconn dispatch/scheduling core (`src/mavconn/mavconn.py`).

Shallow embedding conventions:
* Timestamps and durations (`datetime.datetime`, `timedelta`, float seconds)
  are modelled as rationals `ℚ`.
* Handlers are opaque values of a type parameter `α` (identity is all that
  matters to the code: handlers are stored and returned, never inspected).
* Each call of `datetime.datetime.now()` is an explicit input of the
  function modelling the enclosing Python method.
* Fallible Python code (raised exceptions) is modelled with `Except String`;
  the string carries the exception class and message.
-/

/-- Model of class `Timer` (mavconn.py lines 118-161).  Fields mirror
`_period`, `_handler` and `_next_time`; `α` is the opaque handler type. -/
structure Timer (α : Type) where
  period : ℚ
  handler : α
  next_time : ℚ
deriving DecidableEq, Repr

instance [Inhabited α] : Inhabited (Timer α) := ⟨⟨0, default, 0⟩⟩

/-- Model of `Timer.__init__` (lines 121-126): stores period and handler and
sets `_next_time = datetime.datetime.now() + timedelta(seconds=period)`.
The `now` argument models the `datetime.datetime.now()` call. -/
def Timer.init (period : ℚ) (handler : α) (now : ℚ) : Timer α :=
  { period := period, handler := handler, next_time := now + period }

/-- Model of `Timer.wait_time` (lines 128-131): computes
`delta_time = (self._next_time - current_time).total_seconds()` and calls
`time.sleep(delta_time)`.  `time.sleep` raises `ValueError` when its argument
is negative, which happens exactly when `_next_time` is already in the past.
The `now` argument models the `datetime.datetime.now()` call on line 129. -/
def Timer.wait_time (t : Timer α) (now : ℚ) : Except String Unit :=
  if t.next_time - now < 0 then
    Except.error "ValueError: sleep length must be non-negative"
  else
    Except.ok ()

/-- Model of `Timer.handle` (lines 133-138): calls `wait_time`, then re-arms
`_next_time = datetime.datetime.now() + timedelta(seconds=self._period)`.
`now1` models the clock read inside `wait_time` (line 129); `now2` models the
clock read on line 136, after the sleep has returned (so in any real trace
`now2 ≥ t.next_time` whenever the sleep succeeded).  Note that the body never
invokes or submits `self._handler`: line 135 is only the comment
`# pass handler to worker thread`. -/
def Timer.handle (t : Timer α) (now1 now2 : ℚ) : Except String (Timer α) :=
  match t.wait_time now1 with
  | Except.error e => Except.error e
  | Except.ok _ => Except.ok { t with next_time := now2 + t.period }

/-- Model of `Timer.__lt__` (lines 148-149). -/
def Timer.lt (a b : Timer α) : Prop := a.next_time < b.next_time

/-- Model of `Timer.__le__` (lines 151-152). -/
def Timer.le (a b : Timer α) : Prop := a.next_time ≤ b.next_time

/-- Model of `Timer.__ge__` (lines 154-155). -/
def Timer.ge (a b : Timer α) : Prop := a.next_time ≥ b.next_time

/-- Model of `Timer.__gt__` (lines 157-158). -/
def Timer.gt (a b : Timer α) : Prop := a.next_time > b.next_time

instance (a b : Timer α) : Decidable (Timer.lt a b) := by
  unfold Timer.lt; infer_instance

instance (a b : Timer α) : Decidable (Timer.le a b) := by
  unfold Timer.le; infer_instance

/-!
Model of the `_stacks` attribute: `defaultdict(list)` mapping a message-name
string to a Python list of handlers.  A Python dict is modelled as an
association list in insertion order; `defaultdict.__getitem__` on a missing
key inserts a fresh empty list (this mutation is observable, see the claim
about `pop_handler` on an unknown key).
-/

/-- Handler stacks: insertion-ordered association list from message name to
the stack (Python list) of handlers for that name. -/
abbrev Stacks (α : Type) : Type := List (String × List α)

/-- Model of reading `d[k]` without the defaultdict side effect, i.e. the
lookup half of `dict.__getitem__`: the value at the first entry whose key is
`k`, or `none` when `k` is absent. -/
def dictGet (s : Stacks α) (k : String) : Option (List α) :=
  match s with
  | [] => none
  | (k', v) :: rest => if k' = k then some v else dictGet rest k

/-- Model of `d[k] = v`: replaces the value of the first entry keyed `k`,
or appends a new entry when `k` is absent (Python dicts keep insertion
order, and a plain assignment to a fresh key appends). -/
def dictSet (s : Stacks α) (k : String) (v : List α) : Stacks α :=
  match s with
  | [] => [(k, v)]
  | (k', v') :: rest => if k' = k then (k', v) :: rest else (k', v') :: dictSet rest k v

/-- Model of `defaultdict(list).__getitem__(k)`: returns the stored list when
`k` is present; otherwise inserts `(k, [])` and returns the empty list.
The second component is the dictionary after the (possibly mutating) access. -/
def ddGetItem (s : Stacks α) (k : String) : List α × Stacks α :=
  match dictGet s k with
  | some v => (v, s)
  | none => ([], s ++ [(k, [])])

/-- Model of `dict.pop(k)` with no default (used by `clear_handler`): removes
the entry keyed `k` and returns the updated dict, or raises `KeyError` when
`k` is absent (a `defaultdict`'s `pop` does not invoke the default factory). -/
def dictPop (s : Stacks α) (k : String) : Except String (Stacks α) :=
  match s with
  | [] => Except.error "KeyError"
  | (k', v') :: rest =>
    if k' = k then Except.ok rest
    else
      match dictPop rest k with
      | Except.ok rest' => Except.ok ((k', v') :: rest')
      | Except.error e => Except.error e

/-!
Model of the `_timers` attribute: a Python list manipulated only through
`heapq.heappush` and `heapq.heappop` (mavconn.py lines 100, 112, 115).
`siftdown`, `siftupAux`, `heappush` and `heappop` below are translations of
CPython's `heapq._siftdown`, `heapq._siftup`, `heapq.heappush` and
`heapq.heappop`; element comparison is `Timer.__lt__`, i.e. `Timer.lt`.
-/

/-- Indexing `heap[i]` with an (unused in range) junk default, so statements
can avoid dependent indices. -/
def nth [Inhabited α] (l : List (Timer α)) (i : Nat) : Timer α :=
  l.getD i default

/-- Translation of CPython `heapq._siftdown(heap, startpos, pos)`: bubbles
`newitem` up from `pos` toward `startpos`, moving larger parents down.  The
Python code reads `newitem = heap[pos]` once and writes array slots; here the
current array, position and `newitem` are passed explicitly (the slot at
`pos` is never read by the Python loop). -/
def siftdown [Inhabited α] (heap : List (Timer α)) (startpos pos : Nat)
    (newitem : Timer α) : List (Timer α) :=
  if _hp : startpos < pos then
    if Timer.lt newitem (nth heap ((pos - 1) / 2)) then
      siftdown (heap.set pos (nth heap ((pos - 1) / 2))) startpos ((pos - 1) / 2) newitem
    else
      heap.set pos newitem
  else
    heap.set pos newitem
termination_by pos
decreasing_by omega

/-- Translation of the loop of CPython `heapq._siftup(heap, pos)`: moves the
smaller child up into the hole at `pos` until the hole reaches a leaf, then
writes `newitem` there and restores the invariant with `_siftdown`.
`childpos = 2*pos+1`, `rightpos = childpos+1 = 2*pos+2`; the smaller child is
`rightpos` exactly when `rightpos < len ∧ ¬ heap[childpos] < heap[rightpos]`. -/
def siftupAux [Inhabited α] (heap : List (Timer α)) (startpos pos : Nat)
    (newitem : Timer α) : List (Timer α) :=
  if _hc : 2 * pos + 1 < heap.length then
    if 2 * pos + 2 < heap.length ∧ ¬ Timer.lt (nth heap (2 * pos + 1)) (nth heap (2 * pos + 2)) then
      siftupAux (heap.set pos (nth heap (2 * pos + 2))) startpos (2 * pos + 2) newitem
    else
      siftupAux (heap.set pos (nth heap (2 * pos + 1))) startpos (2 * pos + 1) newitem
  else
    siftdown (heap.set pos newitem) startpos pos newitem
termination_by heap.length - pos
decreasing_by
  · simp only [List.length_set]; omega
  · simp only [List.length_set]; omega

/-- Translation of CPython `heapq._siftup(heap, pos)` proper: `startpos`
is `pos` and `newitem` is read from `heap[pos]`. -/
def siftup [Inhabited α] (heap : List (Timer α)) (pos : Nat) : List (Timer α) :=
  siftupAux heap pos pos (nth heap pos)

/-- Translation of CPython `heapq.heappush`: append the item, then sift it
toward the root from the last position. -/
def heappush [Inhabited α] (heap : List (Timer α)) (item : Timer α) : List (Timer α) :=
  siftdown (heap ++ [item]) 0 heap.length item

/-- Translation of CPython `heapq.heappop`: `lastelt = heap.pop()` (raises
`IndexError`, here `none`, on an empty heap); if the heap is now empty return
`lastelt`, else return the root after moving `lastelt` into it and sifting.
Returns the popped minimum together with the remaining heap. -/
def heappop [Inhabited α] (heap : List (Timer α)) : Option (Timer α × List (Timer α)) :=
  match heap with
  | [] => none
  | _ :: _ =>
    let lastelt := nth heap (heap.length - 1)
    let rest := heap.dropLast
    match rest with
    | [] => some (lastelt, ([] : List (Timer α)))
    | _ :: _ => some (nth rest 0, siftup (rest.set 0 lastelt) 0)

/-!
Model of class `MAVLinkConnection` (mavconn.py lines 11-116).  The
synchronization objects (`_timers_cv`, `_continue_lock`) carry no data and
are represented only through the sequential semantics of the methods that
use them.  The extra field `submitted` is an observation trace: it would
record every handler submitted to a worker (`executor.submit`) or invoked;
no statement of the source ever submits or invokes a handler, so no method
appends to it.
-/

/-- Model of the state of a `MAVLinkConnection` object: `mav` (the opaque
mavfile, identified by a number), `_stacks`, `_timers` and `_continue`. -/
structure MAVLinkConnection (α : Type) where
  mav : Nat
  handlerStacks : Stacks α
  timers : List (Timer α)
  continueFlag : Bool
  submitted : List α
deriving DecidableEq, Repr

/-- Model of `MAVLinkConnection.__init__` (lines 34-40): empty handler
registry, empty timer heap, `_continue = True`. -/
def MAVLinkConnection.init (mavfile : Nat) : MAVLinkConnection α :=
  { mav := mavfile, handlerStacks := [], timers := [], continueFlag := true, submitted := [] }

/-- Model of `MAVLinkConnection.start` (lines 42-45).  The module imports
only `concurrent.futures`, so the bare name `ThreadPoolExecutor` on line 44
is unresolved and the first statement of the body raises `NameError`; line 45
(`timer_thread = threading.Thread(target=self.timer_work)`) is never reached,
and even it would only construct a Thread object without calling `.start()`.
No attribute of `self` (in particular `_continue`) is written. -/
def MAVLinkConnection.start (_c : MAVLinkConnection α) :
    Except String (MAVLinkConnection α) :=
  Except.error "NameError: name ThreadPoolExecutor is not defined"

/-- Model of `MAVLinkConnection.stop` (lines 47-50): sets `_continue` to
`False` under `_continue_lock` and touches nothing else. -/
def MAVLinkConnection.stop (c : MAVLinkConnection α) : MAVLinkConnection α :=
  { c with continueFlag := false }

/-- Model of `MAVLinkConnection.push_handler` (lines 59-70):
`self._stacks[message_name].append(handler)` — the defaultdict access
creates the stack when absent, then the handler is appended at the end. -/
def MAVLinkConnection.push_handler (c : MAVLinkConnection α) (message_name : String)
    (handler : α) : MAVLinkConnection α :=
  let (v, s) := ddGetItem c.handlerStacks message_name
  { c with handlerStacks := dictSet s message_name (v ++ [handler]) }

/-- Model of `MAVLinkConnection.pop_handler` (lines 72-90):
`handler = self._stacks[message_name].pop()` under a `try` that catches
`KeyError` and `IndexError` and raises
`KeyError('That message name key does not exist!')`.  The defaultdict access
never raises `KeyError`; on a missing or empty stack, `list.pop()` raises
`IndexError`, so both cases collapse to the same raised error.  The second
component is the registry state after the call — note that the defaultdict
access leaves a fresh `(message_name, [])` entry behind even when the call
fails. -/
def MAVLinkConnection.pop_handler (c : MAVLinkConnection α) (message_name : String) :
    Except String α × MAVLinkConnection α :=
  let (v, s) := ddGetItem c.handlerStacks message_name
  match v.getLast? with
  | none =>
    (Except.error "KeyError: That message name key does not exist!", { c with handlerStacks := s })
  | some h =>
    (Except.ok h, { c with handlerStacks := dictSet s message_name v.dropLast })

/-- Model of `MAVLinkConnection.clear_handler` (lines 92-96):
`if message_name:` is Python truthiness, so both `None` and the empty string
take the `else` branch (`self._stacks.clear()`); a non-empty name is removed
with `self._stacks.pop(message_name)`, which raises `KeyError` when absent
(the registry is then unchanged).  The first component is the outcome, the
second the state after the call. -/
def MAVLinkConnection.clear_handler (c : MAVLinkConnection α)
    (message_name : Option String) : Except String Unit × MAVLinkConnection α :=
  match message_name with
  | some k =>
    if k = "" then
      (Except.ok (), { c with handlerStacks := [] })
    else
      match dictPop c.handlerStacks k with
      | Except.ok s' => (Except.ok (), { c with handlerStacks := s' })
      | Except.error e => (Except.error e, c)
  | none => (Except.ok (), { c with handlerStacks := [] })

/-- Model of `MAVLinkConnection.add_timer` (lines 98-101): under the
condition variable, `heappush(self._timers, Timer(period, handler))` and
`notify()`.  `now` models the `datetime.datetime.now()` call inside
`Timer.__init__`. -/
def MAVLinkConnection.add_timer [Inhabited α] (c : MAVLinkConnection α)
    (period : ℚ) (handler : α) (now : ℚ) : MAVLinkConnection α :=
  { c with timers := heappush c.timers (Timer.init period handler now) }

/-- Outcome of one call to `timer_work`: `done state iterations` when the
body returns (`iterations` counts how many pop/handle/push passes ran),
`blocked state` when `self._timers_cv.wait_for(timer_status)` never returns
(empty heap and nobody inserts), `excepted state msg` when an exception
(the `ValueError` from a negative sleep) escapes and kills the thread. -/
inductive TWResult (α : Type) where
  | done : MAVLinkConnection α → Nat → TWResult α
  | blocked : MAVLinkConnection α → TWResult α
  | excepted : MAVLinkConnection α → String → TWResult α
deriving DecidableEq, Repr

/-- State component of a `TWResult`. -/
def TWResult.state : TWResult α → MAVLinkConnection α
  | .done c _ => c
  | .blocked c => c
  | .excepted c _ => c

/-- Model of `MAVLinkConnection.timer_work` (lines 103-116).  The body is a
single `if get_cont_val():` — the source itself carries the comment
`# SET TO WHILE` on line 109 — so at most one pop/handle/push pass runs per
call, after which the function returns even when `_continue` is still true.
Inside the pass: wait until the heap is non-empty, pop the minimum, call
`current_timer.handle(self)` outside the lock (its `ValueError` on a past-due
timer is uncaught and would kill the thread with the popped timer lost), then
push the re-armed timer back and notify.  `now1`/`now2` model the two clock
reads inside `Timer.handle`. -/
def MAVLinkConnection.timer_work [Inhabited α] (c : MAVLinkConnection α)
    (now1 now2 : ℚ) : TWResult α :=
  if c.continueFlag then
    match heappop c.timers with
    | none => TWResult.blocked c
    | some (current_timer, rest) =>
      match current_timer.handle now1 now2 with
      | Except.error e => TWResult.excepted { c with timers := rest } e
      | Except.ok t' => TWResult.done { c with timers := heappush rest t' } 1
  else
    TWResult.done c 0

/-- Python-visible stack of a message name: the stored list when the name is
registered, `[]` otherwise. -/
def MAVLinkConnection.stackOf (c : MAVLinkConnection α) (k : String) : List α :=
  (dictGet c.handlerStacks k).getD []

/-- One externally triggerable operation on a connection, used to describe
every state reachable through the public API.  `startOp` leaves the state
unchanged (the `NameError` in `start` is raised before any mutation);
`popH`/`clearH` keep the post-call state whether or not the call raised. -/
inductive MavOp (α : Type) where
  | pushH : String → α → MavOp α
  | popH : String → MavOp α
  | clearH : Option String → MavOp α
  | addT : ℚ → α → ℚ → MavOp α
  | work : ℚ → ℚ → MavOp α
  | stopOp : MavOp α
  | startOp : MavOp α
deriving Repr

/-- Effect of one operation on the connection state. -/
def MavStep [Inhabited α] (c : MAVLinkConnection α) : MavOp α → MAVLinkConnection α
  | .pushH k h => c.push_handler k h
  | .popH k => (c.pop_handler k).2
  | .clearH k => (c.clear_handler k).2
  | .addT p h now => c.add_timer p h now
  | .work now1 now2 => (c.timer_work now1 now2).state
  | .stopOp => c.stop
  | .startOp => c

/-- State reached from a fresh connection after a list of operations. -/
def runOps [Inhabited α] (ops : List (MavOp α)) : MAVLinkConnection α :=
  ops.foldl MavStep (MAVLinkConnection.init 0)

/-- Sequence of `push_handler` calls for the handlers `hs`, in order, all on
the message name `k`. -/
def MAVLinkConnection.pushAll (c : MAVLinkConnection α) (k : String)
    (hs : List α) : MAVLinkConnection α :=
  hs.foldl (fun c h => c.push_handler k h) c

/-- Sequence of `n` successive `pop_handler` calls on the message name `k`,
collecting each call's outcome in order together with the final state. -/
def MAVLinkConnection.popMany (k : String) :
    Nat → MAVLinkConnection α → List (Except String α) × MAVLinkConnection α
  | 0, c => ([], c)
  | n + 1, c =>
    let rc := c.pop_handler k
    let rest := MAVLinkConnection.popMany k n rc.2
    (rc.1 :: rest.1, rest.2)


/-!
Claim theorems about the `Timer` lifecycle (creation-time eligibility,
re-arm policy, sleeping until the due time) and the engine lifecycle
(`start`, `stop`).
-/

/-- Claim C1, counterexample to the stated re-arm policy: the timer
`{period := 1, next_time := 10}` is waited on at clock `10` (a legal trace:
the sleep returns and the clock then reads `21/2 ≥ 10`), and `handle`
re-arms it to `21/2 + 1 = 23/2`, not to the previous due time plus the
period (`10 + 1 = 11`).  So consecutive eligible timestamps do not differ by
exactly the period: the advance is measured from the post-wait wall clock. -/
theorem timer_rearm_cex :
    Timer.handle (⟨1, 0, 10⟩ : Timer ℕ) 10 (21/2) = Except.ok ⟨1, 0, 23/2⟩ ∧
    (10 : ℚ) ≤ 21/2 ∧ ((23 : ℚ)/2 ≠ 10 + 1) := by
  refine ⟨?_, by norm_num, by norm_num⟩
  simp only [Timer.handle, Timer.wait_time]
  norm_num

/-- Helper: when `handle` returns normally, the re-armed due time is the
second clock reading plus the period. -/
lemma Timer.handle_ok_next (t : Timer α) (now1 now2 : ℚ) (t' : Timer α)
    (h : t.handle now1 now2 = Except.ok t') : t'.next_time = now2 + t.period := by
  unfold Timer.handle Timer.wait_time at h
  by_cases hc : t.next_time - now1 < 0
  · simp [hc] at h
  · simp [hc] at h
    rw [← h]

/-- Claim C1, amended: a timer created with period `P` at clock `now` is
first eligible at `now + P`; after `handle` completes, `nextDue` equals the
wall clock read after the wait plus the period — so it exceeds the previous
due time by the period exactly when that clock reads exactly the previous
due time, and otherwise drifts with the wake-up lateness. -/
theorem timer_rearm_amended :
    (∀ (P : ℚ) (h : ℕ) (now : ℚ), (Timer.init P h now).next_time = now + P) ∧
    (∀ (t : Timer ℕ) (now1 now2 : ℚ) (t' : Timer ℕ),
      t.handle now1 now2 = Except.ok t' → t'.next_time = now2 + t.period) ∧
    (∀ (t : Timer ℕ) (now1 : ℚ) (t' : Timer ℕ),
      t.handle now1 t.next_time = Except.ok t' →
        t'.next_time = t.next_time + t.period) := by
  refine ⟨fun P h now => rfl, fun t now1 now2 t' h => t.handle_ok_next now1 now2 t' h,
    fun t now1 t' h => t.handle_ok_next now1 t.next_time t' h⟩

/-- Claim C5, counterexample: for the past-due timer with `next_time = 0`
polled at clock `5`, `wait_time` computes the negative delta `-5`, passes it
to `time.sleep` and fails with `ValueError` instead of proceeding. -/
theorem wait_time_cex :
    Timer.wait_time (⟨1, 0, 0⟩ : Timer ℕ) 5 =
      Except.error "ValueError: sleep length must be non-negative" ∧
    (⟨1, 0, 0⟩ : Timer ℕ).next_time < 5 := by
  constructor
  · simp only [Timer.wait_time]; norm_num
  · norm_num

/-- Claim C5, amended: `wait_time` sleeps the remaining
`next_time - now` seconds and succeeds exactly when the due time is not in
the past (`now ≤ next_time`); when the due time is already past, the
computed delta is negative and the `time.sleep` call raises `ValueError`,
so the wait fails rather than proceeding immediately. -/
theorem wait_time_amended :
    ∀ (t : Timer ℕ) (now : ℚ),
      (now ≤ t.next_time → t.wait_time now = Except.ok ()) ∧
      (t.next_time < now →
        t.wait_time now = Except.error "ValueError: sleep length must be non-negative") := by
  intro t now
  constructor
  · intro h
    unfold Timer.wait_time
    rw [if_neg (by linarith)]
  · intro h
    unfold Timer.wait_time
    rw [if_pos (by linarith)]

/-- Claim C5 amended, witness: the timer due at `5` waited on at clock `3`
sleeps successfully; waited on at clock `7` it raises `ValueError`. -/
theorem wait_time_amended_witness :
    Timer.wait_time (⟨1, 0, 5⟩ : Timer ℕ) 3 = Except.ok () ∧
    Timer.wait_time (⟨1, 0, 5⟩ : Timer ℕ) 7 =
      Except.error "ValueError: sleep length must be non-negative" :=
  ⟨(wait_time_amended ⟨1, 0, 5⟩ 3).1 (by norm_num),
   (wait_time_amended ⟨1, 0, 5⟩ 7).2 (by norm_num)⟩

/-- Claim C1 amended, witness: a timer of period `1` created at clock `9` is
first eligible at `10`; handling the timer due at `10` with both clock reads
at `10` re-arms it to `10 + 1`. -/
theorem timer_rearm_amended_witness :
    (Timer.init (1 : ℚ) (0 : ℕ) 9).next_time = 9 + 1 ∧
    (⟨1, 0, 11⟩ : Timer ℕ).next_time = 10 + (⟨1, 0, 10⟩ : Timer ℕ).period :=
  ⟨timer_rearm_amended.1 1 0 9,
   timer_rearm_amended.2.1 ⟨1, 0, 10⟩ 10 10 ⟨1, 0, 11⟩
     (by norm_num [Timer.handle, Timer.wait_time])⟩

/-- Claim C6: every call of `start` raises
`NameError: name ThreadPoolExecutor is not defined` (the module imports only
`concurrent.futures`), so `start` neither writes the running flag nor
launches any thread; in particular after a prior `stop` the flag stays
`false` and no timer scheduling can proceed.  This contradicts the claimed
`start` behavior, and the method's own docstring
("Initializes the timer, listening, and handler worker threads."). -/
theorem start_name_error :
    ∀ (c : MAVLinkConnection ℕ),
      c.start = Except.error "NameError: name ThreadPoolExecutor is not defined" ∧
      c.stop.continueFlag = false ∧
      c.stop.start = Except.error "NameError: name ThreadPoolExecutor is not defined" :=
  fun _ => ⟨rfl, rfl, rfl⟩

/-- Claim C9: `pop_handler` on a never-registered message name is not atomic
on failure — it raises the `KeyError`, but the `defaultdict` lookup has
already appended a fresh `(name, [])` entry, so the registry after the
failing call differs from the registry before it. -/
theorem pop_handler_not_atomic :
    ∀ (c : MAVLinkConnection ℕ) (k : String),
      dictGet c.handlerStacks k = none →
        (c.pop_handler k).1 = Except.error "KeyError: That message name key does not exist!" ∧
        (c.pop_handler k).2.handlerStacks = c.handlerStacks ++ [(k, [])] ∧
        (c.pop_handler k).2.handlerStacks ≠ c.handlerStacks := by
  intro c k hk
  unfold MAVLinkConnection.pop_handler ddGetItem
  rw [hk]
  refine ⟨rfl, rfl, ?_⟩
  intro h
  have hlen := congrArg List.length h
  simp at hlen

/-- Claim C9, witness: on a fresh connection, popping `"GPS"` fails with the
`KeyError` yet leaves the entry `("GPS", [])` behind in the registry. -/
theorem pop_handler_not_atomic_witness :
    ((MAVLinkConnection.init 0 : MAVLinkConnection ℕ).pop_handler "GPS").1 =
      Except.error "KeyError: That message name key does not exist!" ∧
    ((MAVLinkConnection.init 0 : MAVLinkConnection ℕ).pop_handler "GPS").2.handlerStacks =
      (MAVLinkConnection.init 0 : MAVLinkConnection ℕ).handlerStacks ++ [("GPS", [])] ∧
    ((MAVLinkConnection.init 0 : MAVLinkConnection ℕ).pop_handler "GPS").2.handlerStacks ≠
      (MAVLinkConnection.init 0 : MAVLinkConnection ℕ).handlerStacks :=
  pop_handler_not_atomic (MAVLinkConnection.init 0) "GPS" rfl

/-- Claim C10: `stop` writes only the running flag — the handler registry,
the timer heap, the transport reference and the submission trace are
untouched — and iterating `stop` any positive number of times gives the same
state as one call. -/
theorem stop_frame :
    ∀ (c : MAVLinkConnection ℕ),
      c.stop.handlerStacks = c.handlerStacks ∧
      c.stop.timers = c.timers ∧
      c.stop.mav = c.mav ∧
      c.stop.submitted = c.submitted ∧
      c.stop.continueFlag = false ∧
      ∀ n : ℕ, 1 ≤ n → MAVLinkConnection.stop^[n] c = c.stop := by
  intro c
  refine ⟨rfl, rfl, rfl, rfl, rfl, ?_⟩
  intro n hn
  induction n with
  | zero => omega
  | succ m ih =>
    rcases Nat.eq_zero_or_pos m with hm | hm
    · subst hm; rfl
    · rw [Function.iterate_succ_apply', ih hm]
      rfl

/-- Claim C10, witness: two consecutive `stop` calls on a fresh connection
equal one. -/
theorem stop_frame_witness :
    MAVLinkConnection.stop^[2] (MAVLinkConnection.init 0 : MAVLinkConnection ℕ) =
      (MAVLinkConnection.init 0 : MAVLinkConnection ℕ).stop :=
  (stop_frame (MAVLinkConnection.init 0)).2.2.2.2.2 2 (by norm_num)


/-!
Claim theorems about the scheduling loop (`timer_work`) and the missing
worker-pool handoff.
-/

/-- Helper: no operation of the public API ever appends to the submission
trace — the source contains no `executor.submit` call and never invokes a
stored handler (`Timer.handle` line 135 is only a comment). -/
lemma MavStep_submitted [Inhabited α] (c : MAVLinkConnection α) (op : MavOp α) :
    (MavStep c op).submitted = c.submitted := by
  cases op with
  | pushH k h => rfl
  | popH k =>
    simp only [MavStep, MAVLinkConnection.pop_handler]
    split <;> rfl
  | clearH k =>
    cases k with
    | none => rfl
    | some k =>
      simp only [MavStep, MAVLinkConnection.clear_handler]
      repeat' split
      all_goals rfl
  | addT p h now => rfl
  | work now1 now2 =>
    simp only [MavStep, MAVLinkConnection.timer_work]
    by_cases hf : c.continueFlag
    · rw [if_pos hf]
      split
      · rfl
      · split <;> rfl
    · rw [if_neg hf]
      rfl
  | stopOp => rfl
  | startOp => rfl

/-- Helper: the submission trace of any reachable state is the initial one. -/
lemma foldl_submitted [Inhabited α] (ops : List (MavOp α)) (c : MAVLinkConnection α) :
    (ops.foldl MavStep c).submitted = c.submitted := by
  induction ops generalizing c with
  | nil => rfl
  | cons op rest ih => rw [List.foldl_cons, ih, MavStep_submitted]

/-- Claim C4: across every sequence of API operations — timers added, due
timers popped and handled by the scheduling loop — the set of handlers
submitted to a worker or invoked stays empty: a due timer entry's handler is
never submitted, so the claimed one-invocation-per-firing does not happen.
In particular the spec scenario (period `1/10`, three firings worked at
their due times `1/10`, `2/10`, `3/10`) yields `0` invocations, not `3`. -/
theorem no_handler_submission :
    (∀ ops : List (MavOp ℕ), (runOps ops).submitted = []) ∧
    (runOps [MavOp.addT (1/10) 42 0, MavOp.work (1/10) (1/10),
             MavOp.work (2/10) (2/10), MavOp.work (3/10) (3/10)]).submitted.length ≠ 3 := by
  constructor
  · intro ops
    exact foldl_submitted ops (MAVLinkConnection.init 0)
  · rw [show (runOps [MavOp.addT (1/10) 42 0, MavOp.work (1/10) (1/10),
      MavOp.work (2/10) (2/10), MavOp.work (3/10) (3/10)]).submitted = [] from
      foldl_submitted _ _]
    simp

/-- Claim C3: `timer_work` runs at most one pop/handle/push pass per call —
the body is `if get_cont_val():`, not a loop (the source comment on line 109
says `# SET TO WHILE`) — and on the concrete state with the flag still true
and two queued timers it performs exactly one pass and then returns, with
the flag still true and a timer still pending; when the flag is false it
returns at once without blocking. -/
theorem timer_work_single_pass :
    (∀ (c : MAVLinkConnection ℕ) (now1 now2 : ℚ) (c' : MAVLinkConnection ℕ) (n : ℕ),
      c.timer_work now1 now2 = TWResult.done c' n → n ≤ 1) ∧
    (∀ (c : MAVLinkConnection ℕ) (now1 now2 : ℚ),
      c.continueFlag = false → c.timer_work now1 now2 = TWResult.done c 0) ∧
    MAVLinkConnection.timer_work
      ({ mav := 0, handlerStacks := [], timers := [⟨1, 10, 5⟩, ⟨2, 20, 7⟩],
         continueFlag := true, submitted := [] } : MAVLinkConnection ℕ) 5 5 =
      TWResult.done
        { mav := 0, handlerStacks := [], timers := [⟨1, 10, 6⟩, ⟨2, 20, 7⟩],
          continueFlag := true, submitted := [] } 1 := by
  refine ⟨?_, ?_, ?_⟩
  · intro c now1 now2 c' n h
    unfold MAVLinkConnection.timer_work at h
    by_cases hf : c.continueFlag
    · rw [if_pos hf] at h
      split at h
      · exact absurd h (by simp)
      · split at h
        · exact absurd h (by simp)
        · injection h with h1 h2
          omega
    · rw [if_neg hf] at h
      injection h with h1 h2
      omega
  · intro c now1 now2 hf
    unfold MAVLinkConnection.timer_work
    rw [hf]
    simp
  · have hpop : heappop [(⟨1, 10, 5⟩ : Timer ℕ), ⟨2, 20, 7⟩] =
        some (⟨1, 10, 5⟩, [⟨2, 20, 7⟩]) := by
      rw [heappop]
      simp only [List.length_cons, List.length_nil, nth, List.getD, List.dropLast, List.set]
      rw [siftup, siftupAux]
      norm_num [nth, Timer.lt]
      rw [siftdown]
      norm_num
    have hpush : heappush [(⟨2, 20, 7⟩ : Timer ℕ)] ⟨1, 10, 6⟩ = [⟨1, 10, 6⟩, ⟨2, 20, 7⟩] := by
      rw [heappush, siftdown]
      norm_num [nth, Timer.lt]
      rw [siftdown]
      norm_num
    simp only [MAVLinkConnection.timer_work, hpop, if_true]
    norm_num [Timer.handle, Timer.wait_time, hpush]

/-- Claim C3, witness: the general bound applied to the concrete one-pass
run above. -/
theorem timer_work_single_pass_witness : (1 : ℕ) ≤ 1 :=
  timer_work_single_pass.1
    ({ mav := 0, handlerStacks := [], timers := [⟨1, 10, 5⟩, ⟨2, 20, 7⟩],
       continueFlag := true, submitted := [] } : MAVLinkConnection ℕ) 5 5
    { mav := 0, handlerStacks := [], timers := [⟨1, 10, 6⟩, ⟨2, 20, 7⟩],
      continueFlag := true, submitted := [] } 1
    timer_work_single_pass.2.2

/-!
Claim theorems about the handler registry: LIFO stack semantics of
`push_handler`/`pop_handler` and the two `clear_handler` modes.
-/

/-- Helper: writing a key and reading it back gives the written value. -/
lemma dictGet_dictSet_self (s : Stacks α) (k : String) (v : List α) :
    dictGet (dictSet s k v) k = some v := by
  induction s with
  | nil => simp [dictGet, dictSet]
  | cons e rest ih =>
    obtain ⟨k', v'⟩ := e
    by_cases hk : k' = k
    · simp [dictGet, dictSet, hk]
    · simp [dictGet, dictSet, hk, ih]

/-- Helper: writing a key leaves every other key unchanged. -/
lemma dictGet_dictSet_ne (s : Stacks α) (k k' : String) (v : List α) (h : k ≠ k') :
    dictGet (dictSet s k v) k' = dictGet s k' := by
  induction s with
  | nil => simp [dictGet, dictSet, h]
  | cons e rest ih =>
    obtain ⟨k0, v0⟩ := e
    by_cases hk : k0 = k
    · subst hk
      simp [dictGet, dictSet, h]
    · simp [dictGet, dictSet, hk, ih]

/-- Helper: appending an entry for an absent key makes it readable. -/
lemma dictGet_append_missing (s : Stacks α) (k : String) (v : List α)
    (h : dictGet s k = none) : dictGet (s ++ [(k, v)]) k = some v := by
  induction s with
  | nil => simp [dictGet]
  | cons e rest ih =>
    obtain ⟨k0, v0⟩ := e
    by_cases hk : k0 = k
    · simp [dictGet, hk] at h
    · simp [dictGet, hk] at h ⊢
      exact ih h

/-- Helper: `push_handler` appends the handler at the end of the name's
stack (creating the stack when absent). -/
lemma stackOf_push (c : MAVLinkConnection α) (k : String) (h : α) :
    (c.push_handler k h).stackOf k = c.stackOf k ++ [h] := by
  unfold MAVLinkConnection.push_handler MAVLinkConnection.stackOf ddGetItem
  cases hg : dictGet c.handlerStacks k with
  | some v => simp [dictGet_dictSet_self, hg]
  | none => simp [dictGet_dictSet_self, hg]

/-- Helper: `pop_handler` on a missing or empty stack raises the collapsed
`KeyError` and leaves the name's (possibly freshly created) stack empty. -/
lemma pop_handler_empty (c : MAVLinkConnection α) (k : String)
    (h : c.stackOf k = []) :
    (c.pop_handler k).1 = Except.error "KeyError: That message name key does not exist!" ∧
    (c.pop_handler k).2.stackOf k = [] := by
  unfold MAVLinkConnection.pop_handler ddGetItem
  unfold MAVLinkConnection.stackOf at h
  cases hg : dictGet c.handlerStacks k with
  | some v =>
    rw [hg] at h
    simp at h
    subst h
    simp [MAVLinkConnection.stackOf, hg]
  | none =>
    simp [hg, MAVLinkConnection.stackOf, dictGet_append_missing _ _ _ hg]

/-- Helper: `pop_handler` on a non-empty stack returns the last-pushed
handler and removes exactly it. -/
lemma pop_handler_last (c : MAVLinkConnection α) (k : String) (v : List α) (h : α)
    (hv : c.stackOf k = v ++ [h]) :
    (c.pop_handler k).1 = Except.ok h ∧ (c.pop_handler k).2.stackOf k = v := by
  unfold MAVLinkConnection.pop_handler ddGetItem
  unfold MAVLinkConnection.stackOf at hv
  cases hg : dictGet c.handlerStacks k with
  | none =>
    rw [hg] at hv
    simp at hv
  | some w =>
    rw [hg] at hv
    simp at hv
    subst hv
    simp [MAVLinkConnection.stackOf, dictGet_dictSet_self]

/-- Helper: a run of pushes appends the handlers, in order, to the stack. -/
lemma stackOf_pushAll (c : MAVLinkConnection α) (k : String) (hs : List α) :
    (c.pushAll k hs).stackOf k = c.stackOf k ++ hs := by
  induction hs generalizing c with
  | nil => simp [MAVLinkConnection.pushAll]
  | cons h rest ih =>
    show ((c.push_handler k h).pushAll k rest).stackOf k = _
    rw [ih, stackOf_push]
    simp

/-- Helper: `n ≤ |stack|` successive pops return the top `n` elements of the
stack, newest first, and leave the remaining prefix of the stack. -/
lemma popMany_spec (n : Nat) (c : MAVLinkConnection α) (k : String) (pre : List α)
    (hc : c.stackOf k = pre) (hn : n ≤ pre.length) :
    (MAVLinkConnection.popMany k n c).1 = (pre.reverse.take n).map Except.ok ∧
    (MAVLinkConnection.popMany k n c).2.stackOf k = pre.take (pre.length - n) := by
  induction n generalizing c pre with
  | zero => simpa [MAVLinkConnection.popMany] using hc
  | succ n ih =>
    have hne : pre ≠ [] := by
      intro h
      subst h
      simp at hn
    obtain ⟨ys, y, rfl⟩ : ∃ ys y, pre = ys ++ [y] :=
      ⟨pre.dropLast, pre.getLast hne, (List.dropLast_append_getLast hne).symm⟩
    have hpop := pop_handler_last c k ys y hc
    have hlen : n ≤ ys.length := by
      simp [List.length_append] at hn
      omega
    have hih := ih (c.pop_handler k).2 ys hpop.2 hlen
    constructor
    · show (c.pop_handler k).1 :: (MAVLinkConnection.popMany k n (c.pop_handler k).2).1 = _
      rw [hpop.1, hih.1]
      simp [List.reverse_append]
    · show (MAVLinkConnection.popMany k n (c.pop_handler k).2).2.stackOf k = _
      rw [hih.2]
      have harith : (ys ++ [y]).length - (n + 1) = ys.length - n := by
        simp [List.length_append]
      rw [harith, List.take_append_of_le_length (by omega)]

/-- Claim C2: pushing a sequence of handlers on one message name and then
popping that many times returns them in strict last-in-first-out order;
popping once more (when the name started empty), popping a never-registered
name, and popping a name whose stack is empty all fail with the same
`KeyError('That message name key does not exist!')` — the two failure causes
are indistinguishable to the caller — and a successful pop removes exactly
the returned handler from the stack. -/
theorem push_pop_lifo :
    (∀ (c : MAVLinkConnection ℕ) (k : String) (hs : List ℕ),
      (MAVLinkConnection.popMany k hs.length (c.pushAll k hs)).1 =
        hs.reverse.map Except.ok) ∧
    (∀ (c : MAVLinkConnection ℕ) (k : String) (hs : List ℕ),
      c.stackOf k = [] →
        ((MAVLinkConnection.popMany k hs.length (c.pushAll k hs)).2.pop_handler k).1 =
          Except.error "KeyError: That message name key does not exist!") ∧
    (∀ (c : MAVLinkConnection ℕ) (k : String),
      dictGet c.handlerStacks k = none →
        (c.pop_handler k).1 = Except.error "KeyError: That message name key does not exist!") ∧
    (∀ (c : MAVLinkConnection ℕ) (k : String),
      dictGet c.handlerStacks k = some [] →
        (c.pop_handler k).1 = Except.error "KeyError: That message name key does not exist!") ∧
    (∀ (c : MAVLinkConnection ℕ) (k : String) (v : List ℕ) (h : ℕ),
      c.stackOf k = v ++ [h] →
        (c.pop_handler k).1 = Except.ok h ∧ (c.pop_handler k).2.stackOf k = v) := by
  refine ⟨?_, ?_, ?_, ?_, ?_⟩
  · intro c k hs
    have hall := popMany_spec hs.length (c.pushAll k hs) k (c.stackOf k ++ hs)
      (stackOf_pushAll c k hs) (by simp)
    rw [hall.1, List.reverse_append, List.take_left' (List.length_reverse hs)]
  · intro c k hs hempty
    have hall := popMany_spec hs.length (c.pushAll k hs) k hs
      (by rw [stackOf_pushAll, hempty]; simp) (le_refl _)
    exact (pop_handler_empty _ k (by rw [hall.2]; simp)).1
  · intro c k hnone
    exact (pop_handler_empty c k (by simp [MAVLinkConnection.stackOf, hnone])).1
  · intro c k hemp
    exact (pop_handler_empty c k (by simp [MAVLinkConnection.stackOf, hemp])).1
  · intro c k v h hv
    exact pop_handler_last c k v h hv

/-- Claim C2, witness: pushing `1, 2, 3` on `"HEARTBEAT"` of a fresh
connection and popping three times yields `3, 2, 1`; a fourth pop raises the
`KeyError`; and a single push/pop on `"HB"` returns the pushed handler and
leaves the stack empty. -/
theorem push_pop_lifo_witness :
    (MAVLinkConnection.popMany "HEARTBEAT" 3
      ((MAVLinkConnection.init 0 : MAVLinkConnection ℕ).pushAll "HEARTBEAT" [1, 2, 3])).1 =
      ([1, 2, 3] : List ℕ).reverse.map Except.ok ∧
    ((MAVLinkConnection.popMany "HEARTBEAT" 3
      ((MAVLinkConnection.init 0 : MAVLinkConnection ℕ).pushAll "HEARTBEAT" [1, 2, 3])).2.pop_handler
        "HEARTBEAT").1 =
      Except.error "KeyError: That message name key does not exist!" ∧
    (((MAVLinkConnection.init 0 : MAVLinkConnection ℕ).push_handler "HB" 7).pop_handler "HB").1 =
      Except.ok 7 ∧
    (((MAVLinkConnection.init 0 : MAVLinkConnection ℕ).push_handler "HB" 7).pop_handler
        "HB").2.stackOf "HB" = [] :=
  ⟨push_pop_lifo.1 (MAVLinkConnection.init 0) "HEARTBEAT" [1, 2, 3],
   push_pop_lifo.2.1 (MAVLinkConnection.init 0) "HEARTBEAT" [1, 2, 3] rfl,
   (push_pop_lifo.2.2.2.2 ((MAVLinkConnection.init 0).push_handler "HB" 7) "HB" [] 7 rfl).1,
   (push_pop_lifo.2.2.2.2 ((MAVLinkConnection.init 0).push_handler "HB" 7) "HB" [] 7 rfl).2⟩

/-- Helper: a key outside the key list of the registry reads as absent. -/
lemma dictGet_eq_none_of_not_mem (s : Stacks α) (k : String)
    (h : k ∉ s.map Prod.fst) : dictGet s k = none := by
  induction s with
  | nil => rfl
  | cons e rest ih =>
    obtain ⟨k0, v0⟩ := e
    rw [List.map_cons] at h
    have h1 : (k0 = k) = False :=
      eq_false fun e => h (by rw [e]; exact List.mem_cons_self _ _)
    have h2 : k ∉ rest.map Prod.fst := fun m => h (List.mem_cons_of_mem _ m)
    simp [dictGet, h1, ih h2]

/-- Helper: `dict.pop` on an absent key raises `KeyError`. -/
lemma dictPop_of_none (s : Stacks α) (k : String) (h : dictGet s k = none) :
    dictPop s k = Except.error "KeyError" := by
  induction s with
  | nil => rfl
  | cons e rest ih =>
    obtain ⟨k0, v0⟩ := e
    by_cases hk : k0 = k
    · simp [dictGet, hk] at h
    · simp [dictGet, hk] at h
      simp [dictPop, hk, ih h]

/-- Helper: `dict.pop` on a present key succeeds, leaves other keys
unchanged, and (for a duplicate-free key list, as in any Python dict)
removes the key. -/
lemma dictPop_of_some (s : Stacks α) (k : String) (v : List α)
    (h : dictGet s k = some v) :
    ∃ s', dictPop s k = Except.ok s' ∧
      (∀ k', k' ≠ k → dictGet s' k' = dictGet s k') ∧
      ((s.map Prod.fst).Nodup → dictGet s' k = none) := by
  induction s with
  | nil => simp [dictGet] at h
  | cons e rest ih =>
    obtain ⟨k0, v0⟩ := e
    by_cases hk : k0 = k
    · subst hk
      refine ⟨rest, by simp [dictPop], ?_, ?_⟩
      · intro k' hk'
        have h1 : (k0 = k') = False := eq_false fun hh => hk' hh.symm
        simp [dictGet, h1]
      · intro hnd
        rw [List.map_cons, List.nodup_cons] at hnd
        exact dictGet_eq_none_of_not_mem rest k0 hnd.1
    · simp [dictGet, hk] at h
      obtain ⟨s'', hs1, hs2, hs3⟩ := ih h
      refine ⟨(k0, v0) :: s'', by simp [dictPop, hk, hs1], ?_, ?_⟩
      · intro k' hk'
        by_cases hk0 : k0 = k'
        · simp [dictGet, hk0]
        · simp [dictGet, hk0, hs2 k' hk']
      · intro hnd
        rw [List.map_cons, List.nodup_cons] at hnd
        simp [dictGet, hk, hs3 hnd.2]

/-- Claim C8, amended: `clear_handler` with no name, and also with the empty
string as name (Python truthiness makes `if message_name:` treat `""` like
`None`), removes all stacks, leaving the registry empty; with a non-empty
name it removes exactly that name's stack — other names unchanged, and the
name itself absent afterwards for any duplicate-free registry — and raises a
`KeyError` (not silence) leaving the registry unchanged when the name is
absent. -/
theorem clear_handler_amended :
    (∀ (c : MAVLinkConnection ℕ),
      (c.clear_handler none).1 = Except.ok () ∧
      (c.clear_handler none).2.handlerStacks = []) ∧
    (∀ (c : MAVLinkConnection ℕ) (k : String), k ≠ "" →
      (dictGet c.handlerStacks k = none →
        (c.clear_handler (some k)).1 = Except.error "KeyError" ∧
        (c.clear_handler (some k)).2 = c) ∧
      (∀ v : List ℕ, dictGet c.handlerStacks k = some v →
        (c.clear_handler (some k)).1 = Except.ok () ∧
        (∀ k', k' ≠ k →
          dictGet (c.clear_handler (some k)).2.handlerStacks k' =
            dictGet c.handlerStacks k') ∧
        ((c.handlerStacks.map Prod.fst).Nodup →
          dictGet (c.clear_handler (some k)).2.handlerStacks k = none))) ∧
    (∀ (c : MAVLinkConnection ℕ),
      (c.clear_handler (some "")).1 = Except.ok () ∧
      (c.clear_handler (some "")).2.handlerStacks = []) := by
  refine ⟨fun c => ⟨rfl, rfl⟩, ?_, fun c => ⟨rfl, rfl⟩⟩
  intro c k hk
  constructor
  · intro hnone
    simp [MAVLinkConnection.clear_handler, hk, dictPop_of_none c.handlerStacks k hnone]
  · intro v hv
    obtain ⟨s', hs1, hs2, hs3⟩ := dictPop_of_some c.handlerStacks k v hv
    refine ⟨?_, ?_, ?_⟩
    · simp [MAVLinkConnection.clear_handler, hk, hs1]
    · intro k' hk'
      simp [MAVLinkConnection.clear_handler, hk, hs1, hs2 k' hk']
    · intro hnd
      simp [MAVLinkConnection.clear_handler, hk, hs1, hs3 hnd]

/-- Claim C8, counterexample to the stated per-type semantics: on a registry
holding stacks for the two distinct names `""` and `"HEARTBEAT"`, the
per-type call `clear_handler("")` empties the whole registry — the stack of
the other name `"HEARTBEAT"` (previously `[7]`) is gone — because
`if message_name:` is false for the empty string and the `else` branch runs
`self._stacks.clear()`. -/
theorem clear_handler_cex :
    dictGet (((MAVLinkConnection.init 0 : MAVLinkConnection ℕ).push_handler "" 5).push_handler
      "HEARTBEAT" 7).handlerStacks "HEARTBEAT" = some [7] ∧
    ((((MAVLinkConnection.init 0 : MAVLinkConnection ℕ).push_handler "" 5).push_handler
      "HEARTBEAT" 7).clear_handler (some "")).2.handlerStacks = [] ∧
    dictGet ((((MAVLinkConnection.init 0 : MAVLinkConnection ℕ).push_handler "" 5).push_handler
      "HEARTBEAT" 7).clear_handler (some "")).2.handlerStacks "HEARTBEAT" = none :=
  ⟨rfl, rfl, rfl⟩

/-- Claim C8 amended, witness: clearing the absent name `"GPS"` on a fresh
connection raises `KeyError`; after registering a `"GPS"` handler, clearing
`"GPS"` removes its entry. -/
theorem clear_handler_amended_witness :
    ((MAVLinkConnection.init 0 : MAVLinkConnection ℕ).clear_handler (some "GPS")).1 =
      Except.error "KeyError" ∧
    dictGet (((MAVLinkConnection.init 0 : MAVLinkConnection ℕ).push_handler "GPS"
      3).clear_handler (some "GPS")).2.handlerStacks "GPS" = none :=
  ⟨((clear_handler_amended.2.1 (MAVLinkConnection.init 0) "GPS" (by decide)).1 rfl).1,
   (((clear_handler_amended.2.1 ((MAVLinkConnection.init 0).push_handler "GPS" 3) "GPS"
      (by decide)).2 [3] rfl).2.2) (by decide)⟩

/-!
Claim theorems about the timer queue: the `heapq` min-heap invariant over
`Timer.__lt__`, preserved by `add_timer` and the scheduling loop, so the
minimum element always has the smallest `nextDue` and `heappop` always
returns it.
-/

/-- Helper: reading a freshly written slot. -/
lemma nth_set_self [Inhabited α] (l : List (Timer α)) (i : Nat) (a : Timer α)
    (h : i < l.length) : nth (l.set i a) i = a := by
  induction l generalizing i with
  | nil => simp at h
  | cons x xs ih =>
    cases i with
    | zero => rfl
    | succ i => exact ih i (by simpa using h)

/-- Helper: writing one slot leaves the others unchanged. -/
lemma nth_set_ne [Inhabited α] (l : List (Timer α)) (i j : Nat) (a : Timer α)
    (h : i ≠ j) : nth (l.set i a) j = nth l j := by
  induction l generalizing i j with
  | nil => rfl
  | cons x xs ih =>
    cases i with
    | zero =>
      cases j with
      | zero => exact absurd rfl h
      | succ j => rfl
    | succ i =>
      cases j with
      | zero => rfl
      | succ j => exact ih i j (by omega)

/-- Helper: indexing an append inside the left part. -/
lemma nth_append_left [Inhabited α] (l l2 : List (Timer α)) (i : Nat)
    (h : i < l.length) : nth (l ++ l2) i = nth l i := by
  induction l generalizing i with
  | nil => simp at h
  | cons x xs ih =>
    cases i with
    | zero => rfl
    | succ i => exact ih i (by simpa using h)

/-- Helper: `dropLast` keeps every index below the last. -/
lemma nth_dropLast [Inhabited α] (l : List (Timer α)) (i : Nat)
    (h : i < l.length - 1) : nth l.dropLast i = nth l i := by
  induction l generalizing i with
  | nil => rfl
  | cons x xs ih =>
    cases xs with
    | nil => simp at h
    | cons y ys =>
      cases i with
      | zero => rfl
      | succ i =>
        show nth (y :: ys).dropLast i = nth (y :: ys) i
        exact ih i (by simp at h ⊢; omega)

/-- Helper: in-range `nth` agrees with list indexing. -/
lemma nth_eq_getElem [Inhabited α] (l : List (Timer α)) (i : Nat)
    (h : i < l.length) : nth l i = l[i] := by
  induction l generalizing i with
  | nil => simp at h
  | cons x xs ih =>
    cases i with
    | zero => rfl
    | succ i => exact ih i (by simpa using h)

/-- Heap invariant of CPython `heapq`: every element is no smaller than its
parent at index `(j - 1) / 2` (comparison through `_next_time`, as by
`Timer.__lt__`). -/
def heapInv [Inhabited α] (l : List (Timer α)) : Prop :=
  ∀ j, 0 < j → j < l.length →
    (nth l ((j - 1) / 2)).next_time ≤ (nth l j).next_time

/-- Helper: the empty heap satisfies the invariant. -/
lemma heapInv_nil [Inhabited α] : heapInv ([] : List (Timer α)) := by
  intro j hj hlen
  simp at hlen

/-- Helper: under the heap invariant the root is a minimum. -/
lemma heapInv_root_min [Inhabited α] (l : List (Timer α)) (h : heapInv l) :
    ∀ j, j < l.length → (nth l 0).next_time ≤ (nth l j).next_time := by
  intro j
  induction j using Nat.strong_induction_on with
  | _ j ih =>
    intro hlen
    cases Nat.eq_zero_or_pos j with
    | inl h0 => subst h0; exact le_refl _
    | inr hpos =>
      exact le_trans (ih ((j - 1) / 2) (by omega) (by omega)) (h j hpos hlen)

/-- Characterization of `Timer.__lt__`: strictly earlier due time. -/
lemma Timer.lt_iff (a b : Timer α) : Timer.lt a b ↔ a.next_time < b.next_time := Iff.rfl

/-- Characterization of `Timer.__le__`. -/
lemma Timer.le_iff (a b : Timer α) : Timer.le a b ↔ a.next_time ≤ b.next_time := Iff.rfl

/-- Characterization of `Timer.__gt__`. -/
lemma Timer.gt_iff (a b : Timer α) : Timer.gt a b ↔ b.next_time < a.next_time := Iff.rfl

/-- Characterization of `Timer.__ge__`. -/
lemma Timer.ge_iff (a b : Timer α) : Timer.ge a b ↔ b.next_time ≤ a.next_time := Iff.rfl

/-- Helper, correctness of the sift-toward-root pass: if the array
satisfies the heap invariant everywhere except at the hole `pos`, `newitem`
is below the hole's children, and the hole's parent is below the hole's
children, then `_siftdown` restores the full invariant. -/
lemma siftdown_inv [Inhabited α] :
    ∀ (pos : Nat) (heap : List (Timer α)) (newitem : Timer α),
      pos < heap.length →
      (∀ j, 0 < j → j < heap.length → j ≠ pos →
        (nth heap ((j - 1) / 2)).next_time ≤ (nth heap j).next_time) →
      (∀ j, 0 < j → j < heap.length → (j - 1) / 2 = pos →
        newitem.next_time ≤ (nth heap j).next_time) →
      (0 < pos → ∀ j, 0 < j → j < heap.length → (j - 1) / 2 = pos →
        (nth heap ((pos - 1) / 2)).next_time ≤ (nth heap j).next_time) →
      heapInv (siftdown heap 0 pos newitem) := by
  intro pos
  induction pos using Nat.strong_induction_on with
  | _ pos ih =>
    intro heap newitem hlt ha hb hc
    rw [siftdown]
    by_cases hp : 0 < pos
    · rw [dif_pos hp]
      by_cases hcmp : Timer.lt newitem (nth heap ((pos - 1) / 2))
      · rw [if_pos hcmp]
        have hcmp' : newitem.next_time < (nth heap ((pos - 1) / 2)).next_time :=
          (Timer.lt_iff _ _).mp hcmp
        apply ih ((pos - 1) / 2) (by omega)
        · rw [List.length_set]
          omega
        · intro j hj hjlen hjpp
          rw [List.length_set] at hjlen
          by_cases hjpos : j = pos
          · rw [hjpos, nth_set_ne _ _ _ _ (by omega), nth_set_self _ _ _ hlt]
          · by_cases hjc : (j - 1) / 2 = pos
            · rw [hjc, nth_set_self _ _ _ hlt, nth_set_ne _ _ _ _ (by omega)]
              exact hc hp j hj hjlen hjc
            · rw [nth_set_ne _ _ _ _ (by omega), nth_set_ne _ _ _ _ (by omega)]
              exact ha j hj hjlen hjpos
        · intro j hj hjlen hjc
          rw [List.length_set] at hjlen
          by_cases hjpos : j = pos
          · subst hjpos
            rw [nth_set_self _ _ _ hlt]
            exact le_of_lt hcmp'
          · rw [nth_set_ne _ _ _ _ (by omega)]
            have h1 := ha j hj hjlen hjpos
            rw [hjc] at h1
            exact le_trans (le_of_lt hcmp') h1
        · intro hpp0 j hj hjlen hjc
          rw [List.length_set] at hjlen
          by_cases hjpos : j = pos
          · rw [hjpos, nth_set_ne _ _ _ _ (by omega), nth_set_self _ _ _ hlt]
            exact ha ((pos - 1) / 2) hpp0 (by omega) (by omega)
          · rw [nth_set_ne _ _ _ _ (by omega), nth_set_ne _ _ _ _ (by omega)]
            have h1 := ha j hj hjlen hjpos
            rw [hjc] at h1
            exact le_trans (ha ((pos - 1) / 2) hpp0 (by omega) (by omega)) h1
      · rw [if_neg hcmp]
        have hcmp' : (nth heap ((pos - 1) / 2)).next_time ≤ newitem.next_time :=
          le_of_not_lt fun h' => hcmp ((Timer.lt_iff _ _).mpr h')
        intro j hj hjlen
        rw [List.length_set] at hjlen
        by_cases hjpos : j = pos
        · subst hjpos
          rw [nth_set_ne _ _ _ _ (by omega), nth_set_self _ _ _ hlt]
          exact hcmp'
        · by_cases hjc : (j - 1) / 2 = pos
          · rw [hjc, nth_set_self _ _ _ hlt, nth_set_ne _ _ _ _ (by omega)]
            exact hb j hj hjlen hjc
          · rw [nth_set_ne _ _ _ _ (by omega), nth_set_ne _ _ _ _ (by omega)]
            exact ha j hj hjlen hjpos
    · rw [dif_neg hp]
      have hp0 : pos = 0 := by omega
      subst hp0
      intro j hj hjlen
      rw [List.length_set] at hjlen
      by_cases hjc : (j - 1) / 2 = 0
      · rw [hjc, nth_set_self _ _ _ hlt, nth_set_ne _ _ _ _ (by omega)]
        exact hb j hj hjlen hjc
      · rw [nth_set_ne _ _ _ _ (by omega), nth_set_ne _ _ _ _ (by omega)]
        exact ha j hj hjlen (by omega)

/-- Helper, correctness of the sift-toward-leaves pass: if the array
satisfies the heap invariant on every edge not leaving the hole `pos`, and
the hole's parent is below the hole's children, then `_siftup` restores the
full invariant (the final `_siftdown` call places `newitem`). -/
lemma siftupAux_inv [Inhabited α] :
    ∀ (fuel pos : Nat) (heap : List (Timer α)) (newitem : Timer α),
      heap.length - pos ≤ fuel →
      pos < heap.length →
      (∀ j, 0 < j → j < heap.length → (j - 1) / 2 ≠ pos →
        (nth heap ((j - 1) / 2)).next_time ≤ (nth heap j).next_time) →
      (0 < pos → ∀ j, 0 < j → j < heap.length → (j - 1) / 2 = pos →
        (nth heap ((pos - 1) / 2)).next_time ≤ (nth heap j).next_time) →
      heapInv (siftupAux heap 0 pos newitem) := by
  intro fuel
  induction fuel with
  | zero =>
    intro pos heap newitem hfuel hlt ha hb
    omega
  | succ fuel ih =>
    intro pos heap newitem hfuel hlt ha hb
    rw [siftupAux]
    by_cases hch : 2 * pos + 1 < heap.length
    · rw [dif_pos hch]
      by_cases hsel : 2 * pos + 2 < heap.length ∧
          ¬ Timer.lt (nth heap (2 * pos + 1)) (nth heap (2 * pos + 2))
      · rw [if_pos hsel]
        have hkey : (nth heap (2 * pos + 2)).next_time ≤ (nth heap (2 * pos + 1)).next_time :=
          le_of_not_lt fun h' => hsel.2 ((Timer.lt_iff _ _).mpr h')
        apply ih (2 * pos + 2) (heap.set pos (nth heap (2 * pos + 2))) newitem
        · rw [List.length_set]
          omega
        · rw [List.length_set]
          exact hsel.1
        · intro j hj hjlen hjc
          rw [List.length_set] at hjlen
          by_cases hjpos : j = pos
          · rw [hjpos, nth_set_ne _ _ _ _ (by omega), nth_set_self _ _ _ hlt]
            have hjp : 0 < pos := by omega
            exact hb hjp (2 * pos + 2) (by omega) hsel.1 (by omega)
          · by_cases hjch : (j - 1) / 2 = pos
            · by_cases hjc2 : j = 2 * pos + 2
              · rw [hjch, nth_set_self _ _ _ hlt, nth_set_ne _ _ _ _ (by omega), hjc2]
              · have hj1 : j = 2 * pos + 1 := by omega
                rw [hjch, nth_set_self _ _ _ hlt, nth_set_ne _ _ _ _ (by omega), hj1]
                exact hkey
            · rw [nth_set_ne _ _ _ _ (by omega), nth_set_ne _ _ _ _ (by omega)]
              exact ha j hj hjlen hjch
        · intro _ j hj hjlen hjc
          rw [List.length_set] at hjlen
          have hcp : (2 * pos + 2 - 1) / 2 = pos := by omega
          rw [hcp, nth_set_self _ _ _ hlt, nth_set_ne _ _ _ _ (by omega)]
          have h1 := ha j hj hjlen (by omega)
          rw [hjc] at h1
          exact h1
      · rw [if_neg hsel]
        apply ih (2 * pos + 1) (heap.set pos (nth heap (2 * pos + 1))) newitem
        · rw [List.length_set]
          omega
        · rw [List.length_set]
          exact hch
        · intro j hj hjlen hjc
          rw [List.length_set] at hjlen
          by_cases hjpos : j = pos
          · rw [hjpos, nth_set_ne _ _ _ _ (by omega), nth_set_self _ _ _ hlt]
            have hjp : 0 < pos := by omega
            exact hb hjp (2 * pos + 1) (by omega) hch (by omega)
          · by_cases hjch : (j - 1) / 2 = pos
            · by_cases hjc1 : j = 2 * pos + 1
              · rw [hjch, nth_set_self _ _ _ hlt, nth_set_ne _ _ _ _ (by omega), hjc1]
              · have hj2 : j = 2 * pos + 2 := by omega
                have hkey : (nth heap (2 * pos + 1)).next_time ≤ (nth heap (2 * pos + 2)).next_time := by
                  rcases not_and_or.mp hsel with hno | hdl
                  · omega
                  · exact le_of_lt ((Timer.lt_iff _ _).mp (not_not.mp hdl))
                rw [hjch, nth_set_self _ _ _ hlt, nth_set_ne _ _ _ _ (by omega), hj2]
                exact hkey
            · rw [nth_set_ne _ _ _ _ (by omega), nth_set_ne _ _ _ _ (by omega)]
              exact ha j hj hjlen hjch
        · intro _ j hj hjlen hjc
          rw [List.length_set] at hjlen
          have hcp : (2 * pos + 1 - 1) / 2 = pos := by omega
          rw [hcp, nth_set_self _ _ _ hlt, nth_set_ne _ _ _ _ (by omega)]
          have h1 := ha j hj hjlen (by omega)
          rw [hjc] at h1
          exact h1
    · rw [dif_neg hch]
      apply siftdown_inv pos (heap.set pos newitem) newitem (by rw [List.length_set]; exact hlt)
      · intro j hj hjlen hjp
        rw [List.length_set] at hjlen
        by_cases hjch : (j - 1) / 2 = pos
        · omega
        · rw [nth_set_ne _ _ _ _ (by omega), nth_set_ne _ _ _ _ (by omega)]
          exact ha j hj hjlen hjch
      · intro j hj hjlen hjch
        rw [List.length_set] at hjlen
        omega
      · intro hp0 j hj hjlen hjch
        rw [List.length_set] at hjlen
        omega

/-- Helper: `heappush` preserves the heap invariant. -/
lemma heappush_heapInv [Inhabited α] (heap : List (Timer α)) (item : Timer α)
    (h : heapInv heap) : heapInv (heappush heap item) := by
  unfold heappush
  apply siftdown_inv heap.length (heap ++ [item]) item (by simp)
  · intro j hj hjlen hjp
    rw [List.length_append, List.length_singleton] at hjlen
    have hjlt : j < heap.length := by omega
    rw [nth_append_left _ _ _ hjlt, nth_append_left _ _ _ (by omega)]
    exact h j hj hjlt
  · intro j hj hjlen hjc
    rw [List.length_append, List.length_singleton] at hjlen
    omega
  · intro hp j hj hjlen hjc
    rw [List.length_append, List.length_singleton] at hjlen
    omega

/-- Helper: the heap left by a successful `heappop` satisfies the
invariant. -/
lemma heappop_heapInv [Inhabited α] (heap : List (Timer α)) (h : heapInv heap) :
    ∀ t r, heappop heap = some (t, r) → heapInv r := by
  intro t r hpop
  cases heap with
  | nil => simp [heappop] at hpop
  | cons a as =>
    cases as with
    | nil =>
      have hred : heappop [a] = some (a, []) := rfl
      rw [hred] at hpop
      injection hpop with hpair
      injection hpair with h1 h2
      subst h2
      exact heapInv_nil
    | cons b bs =>
      have hred : heappop (a :: b :: bs) =
          some (nth ((a :: b :: bs).dropLast) 0,
            siftupAux (((a :: b :: bs).dropLast).set 0
                (nth (a :: b :: bs) ((a :: b :: bs).length - 1))) 0 0
              (nth (((a :: b :: bs).dropLast).set 0
                (nth (a :: b :: bs) ((a :: b :: bs).length - 1))) 0)) := rfl
      rw [hred] at hpop
      injection hpop with hpair
      injection hpair with h1 h2
      subst h2
      have hdl : ((a :: b :: bs).dropLast).length = (a :: b :: bs).length - 1 :=
        List.length_dropLast _
      apply siftupAux_inv (((a :: b :: bs).dropLast).set 0
        (nth (a :: b :: bs) ((a :: b :: bs).length - 1))).length 0
      · omega
      · rw [List.length_set, hdl]
        simp
      · intro j hj hjlen hjc
        rw [List.length_set] at hjlen
        rw [nth_set_ne _ _ _ _ (by omega), nth_set_ne _ _ _ _ (by omega)]
        rw [nth_dropLast _ _ (by omega), nth_dropLast _ _ (by omega)]
        exact h j hj (by omega)
      · intro hp
        exact absurd hp (by omega)

/-- Helper: `heappop` returns the root element `heap[0]`. -/
lemma heappop_fst [Inhabited α] (heap : List (Timer α)) (t : Timer α)
    (r : List (Timer α)) (h : heappop heap = some (t, r)) : t = nth heap 0 := by
  cases heap with
  | nil => simp [heappop] at h
  | cons a as =>
    cases as with
    | nil =>
      have hred : heappop [a] = some (a, []) := rfl
      rw [hred] at h
      injection h with hpair
      injection hpair with h1 h2
      exact h1.symm
    | cons b bs =>
      have hred : heappop (a :: b :: bs) =
          some (nth ((a :: b :: bs).dropLast) 0,
            siftupAux (((a :: b :: bs).dropLast).set 0
                (nth (a :: b :: bs) ((a :: b :: bs).length - 1))) 0 0
              (nth (((a :: b :: bs).dropLast).set 0
                (nth (a :: b :: bs) ((a :: b :: bs).length - 1))) 0)) := rfl
      rw [hred] at h
      injection h with hpair
      injection hpair with h1 h2
      rw [← h1]
      exact nth_dropLast _ _ (by simp)

/-- Helper: under the invariant, `heappop` returns an element whose
`nextDue` is minimal among all queued entries. -/
lemma heappop_min [Inhabited α] (heap : List (Timer α)) (h : heapInv heap)
    (t : Timer α) (r : List (Timer α)) (hp : heappop heap = some (t, r)) :
    ∀ x ∈ heap, t.next_time ≤ x.next_time := by
  intro x hx
  obtain ⟨i, hlt, hget⟩ := List.getElem_of_mem hx
  rw [heappop_fst heap t r hp, ← hget, ← nth_eq_getElem _ _ hlt]
  exact heapInv_root_min heap h i hlt

/-- Helper: every public-API operation — including the scheduling loop's
pop/re-arm/push pass — preserves the heap invariant of `_timers`. -/
lemma MavStep_heapInv [Inhabited α] (c : MAVLinkConnection α) (op : MavOp α)
    (h : heapInv c.timers) : heapInv (MavStep c op).timers := by
  cases op with
  | pushH k hh =>
    simp only [MavStep, MAVLinkConnection.push_handler]
    exact h
  | popH k =>
    simp only [MavStep, MAVLinkConnection.pop_handler]
    repeat' split
    all_goals exact h
  | clearH k =>
    simp only [MavStep, MAVLinkConnection.clear_handler]
    repeat' split
    all_goals exact h
  | addT p hh now => exact heappush_heapInv c.timers (Timer.init p hh now) h
  | work now1 now2 =>
    simp only [MavStep, MAVLinkConnection.timer_work]
    by_cases hf : c.continueFlag
    · rw [if_pos hf]
      cases hpop : heappop c.timers with
      | none => exact h
      | some pr =>
        obtain ⟨tm, rest⟩ := pr
        have hrest : heapInv rest := heappop_heapInv c.timers h tm rest hpop
        show heapInv ((match tm.handle now1 now2 with
          | Except.error e => TWResult.excepted { c with timers := rest } e
          | Except.ok t' => TWResult.done { c with timers := heappush rest t' } 1).state.timers)
        cases tm.handle now1 now2 with
        | error e => exact hrest
        | ok t' => exact heappush_heapInv rest t' hrest
    · rw [if_neg hf]
      exact h
  | stopOp => exact h
  | startOp => exact h

/-- Helper: the heap invariant holds along any operation sequence. -/
lemma foldl_heapInv [Inhabited α] (ops : List (MavOp α)) (c : MAVLinkConnection α)
    (h : heapInv c.timers) : heapInv ((ops.foldl MavStep c).timers) := by
  induction ops generalizing c with
  | nil => exact h
  | cons op rest ih => exact ih (MavStep c op) (MavStep_heapInv c op h)

/-- Claim C7: `Timer`'s comparison operators order entries by `nextDue`
ascending; `add_timer` pushes the new entry keyed by its `nextDue` (under
the condition variable, whose locking is sequentialized in this model); and
in every state reachable through the public API the timer queue satisfies
the `heapq` invariant, so its minimum element `heap[0]` has the smallest
`nextDue` among all entries and the scheduling loop's `heappop` always
returns an entry with minimal `nextDue`. -/
theorem timer_queue_min :
    (∀ a b : Timer ℕ,
      (Timer.lt a b ↔ a.next_time < b.next_time) ∧
      (Timer.le a b ↔ a.next_time ≤ b.next_time) ∧
      (Timer.gt a b ↔ b.next_time < a.next_time) ∧
      (Timer.ge a b ↔ b.next_time ≤ a.next_time)) ∧
    (∀ (c : MAVLinkConnection ℕ) (p : ℚ) (hd : ℕ) (now : ℚ),
      (c.add_timer p hd now).timers = heappush c.timers (Timer.init p hd now)) ∧
    (∀ ops : List (MavOp ℕ),
      heapInv (runOps ops).timers ∧
      (∀ t r, heappop (runOps ops).timers = some (t, r) →
        ∀ x ∈ (runOps ops).timers, t.next_time ≤ x.next_time)) := by
  refine ⟨fun a b => ⟨Iff.rfl, Iff.rfl, Iff.rfl, Iff.rfl⟩, fun c p hd now => rfl, ?_⟩
  intro ops
  have hinv : heapInv (runOps ops : MAVLinkConnection ℕ).timers :=
    foldl_heapInv ops (MAVLinkConnection.init 0) heapInv_nil
  exact ⟨hinv, fun t r hp x hx => heappop_min _ hinv t r hp x hx⟩

/-- Claim C7, witness: after adding timers due at `7` and at `3`, the loop
pops the entry due at `3`, which is below the remaining entry due at `7`. -/
theorem timer_queue_min_witness :
    (⟨1, 10, 3⟩ : Timer ℕ).next_time ≤ (⟨2, 20, 7⟩ : Timer ℕ).next_time := by
  have h1 : heappush ([] : List (Timer ℕ)) (Timer.init 2 20 5) = [⟨2, 20, 7⟩] := by
    rw [heappush, siftdown]
    norm_num [Timer.init]
  have h2 : heappush [(⟨2, 20, 7⟩ : Timer ℕ)] (Timer.init 1 10 2) =
      [⟨1, 10, 3⟩, ⟨2, 20, 7⟩] := by
    rw [heappush, siftdown]
    norm_num [Timer.init, Timer.lt, nth]
    rw [siftdown]
    norm_num
  have ht : (runOps [MavOp.addT 2 20 5, MavOp.addT 1 10 2] : MAVLinkConnection ℕ).timers =
      [⟨1, 10, 3⟩, ⟨2, 20, 7⟩] := by
    show heappush (heappush ([] : List (Timer ℕ)) (Timer.init 2 20 5)) (Timer.init 1 10 2) = _
    rw [h1, h2]
  have hp : heappop [(⟨1, 10, 3⟩ : Timer ℕ), ⟨2, 20, 7⟩] = some (⟨1, 10, 3⟩, [⟨2, 20, 7⟩]) := by
    rw [heappop]
    simp only [List.length_cons, List.length_nil, nth, List.getD, List.dropLast, List.set]
    rw [siftup, siftupAux]
    norm_num [nth, Timer.lt]
    rw [siftdown]
    norm_num
  exact (timer_queue_min.2.2 [MavOp.addT 2 20 5, MavOp.addT 1 10 2]).2 ⟨1, 10, 3⟩
    [⟨2, 20, 7⟩] (by rw [ht, hp]) ⟨2, 20, 7⟩ (by rw [ht]; simp)
